import Mathlib

/-!
Verification of the codeexplain explanation pipeline.

This file gives a shallow embedding of the program's hard core:

* `CacheManager` (src/core/cacheManager.js): fingerprint-cache key derivation,
  the three-tier `getCachedExplanation` lookup and `setCachedExplanation` store,
  with their try/catch error swallowing;
* `AIEngine` (aiEngine source): `retryWithBackoff`, `explainFile`,
  `processFilesInBatches`, `processFilesWithRequestBatching`,
  `generateExplanations`, and the concurrency/batching discipline.

External collaborators (crypto hashes, the prompt template manager, the token
estimator, the langchain model instance) are modelled as function parameters:
the theorems hold for every instantiation of them.  File-system effects are
modelled by an explicit environment `Env`; fallible operations return
`Except`.  Instrumentation counters (content reads, provider invocations) are
added to state the claims about "zero reads" / "exactly n provider calls";
they do not alter control flow.
-/

namespace CodeExplain

/-- Result of `fs.stat`: modification time in epoch milliseconds and byte size. -/
structure FileStat where
  mtime : Int
  size : Nat
deriving DecidableEq, Repr

/-- Non-secret config subset persisted in a cache record
(`cacheConfig` in `setCachedExplanation`). -/
structure CacheConfigSnapshot where
  mode : String
  level : String
  provider : String
  model : String
deriving DecidableEq, Repr

/-- Persisted cache record (`cacheData` in cacheManager.js). -/
structure CacheRecord where
  fileHash : String
  fileSize : Nat
  mtime : Int
  explanation : String
  timestamp : String
  config : CacheConfigSnapshot
deriving DecidableEq, Repr

/-- Run configuration, restricted to the fields the embedded code reads.
`cache` stands for the JS condition `config.cache !== false`;
`concurrency`, `retryAttempts`, `retryDelay` are optional numbers
(`config.concurrency`, `config.retry?.attempts`, `config.retry?.delay`). -/
structure Config where
  mode : String
  level : String
  provider : String
  model : String
  apiKey : String
  cache : Bool
  concurrency : Option Nat
  retryAttempts : Option Nat
  retryDelay : Option Nat
deriving DecidableEq, Repr

/-- Association-list read, modelling a per-key file in the cache directory. -/
def storeGet {V : Type} : List (String × V) → String → Option V
  | [], _ => none
  | (k', v') :: rest, k => if k' = k then some v' else storeGet rest k

/-- Association-list overwrite, modelling `fs.writeJson` to a per-key file:
the new value replaces any previous value for the key. -/
def storeSet {V : Type} : List (String × V) → String → V → List (String × V)
  | [], k, v => [(k, v)]
  | (k', v') :: rest, k, v =>
      if k' = k then (k, v) :: rest else (k', v') :: storeSet rest k v

/-- File-system / cache-directory environment.  `cacheFiles` maps a cache key
to the outcome of `fs.readJson` on its file (`Except.error` = malformed JSON /
I/O failure); a missing entry models `fs.pathExists` returning false.
`statOf` and `contentOf` are the outcomes of `fs.stat` / `fs.readFile` per
path; `writeOk` is the outcome of `fs.writeJson`; `nowIso` is
`new Date().toISOString()`. -/
structure Env where
  cacheFiles : List (String × Except String CacheRecord)
  statOf : String → Except String FileStat
  contentOf : String → Except String String
  writeOk : Except String Unit
  nowIso : String

/-- Cache key derivation (`getCacheKey`): an md5 digest of
`filePath-mode-level-provider-model`.  The digest function is a parameter. -/
def getCacheKey (md5 : String → String) (filePath : String) (cfg : Config) : String :=
  md5 (filePath ++ "-" ++ cfg.mode ++ "-" ++ cfg.level ++ "-" ++ cfg.provider ++ "-" ++ cfg.model)

/-- Outcome of a cache lookup: the returned explanation (or `none` = miss),
the number of file-content reads performed, and the environment after any
mtime-refresh write. -/
structure LookupOut where
  result : Option String
  reads : Nat
  env : Env

/-- Body of the `try` block of `getCachedExplanation`, translated clause by
clause from cacheManager.js.  An `Except.error` carries the thrown message
together with the number of content reads performed before the throw. -/
def tryGetCachedExplanation (md5 sha : String → String) (env : Env) (filePath : String)
    (cfg : Config) : Except (String × Nat) LookupOut :=
  let cacheKey := getCacheKey md5 filePath cfg
  match storeGet env.cacheFiles cacheKey with
  | none => .ok ⟨none, 0, env⟩
  | some (.error e) => .error (e, 0)
  | some (.ok cacheData) =>
    match env.statOf filePath with
    | .error e => .error (e, 0)
    | .ok stats =>
      if cacheData.mtime = stats.mtime ∧ cacheData.fileSize = stats.size then
        .ok ⟨some cacheData.explanation, 0, env⟩
      else if cacheData.fileSize = stats.size then
        match env.contentOf filePath with
        | .error e => .error (e, 0)
        | .ok fileContent =>
          let currentHash := sha fileContent
          if cacheData.fileHash = currentHash then
            let newData := { cacheData with mtime := stats.mtime }
            match env.writeOk with
            | .error e => .error (e, 1)
            | .ok _ =>
              .ok ⟨some newData.explanation, 1,
                   { env with cacheFiles := storeSet env.cacheFiles cacheKey (.ok newData) }⟩
          else .ok ⟨none, 1, env⟩
      else .ok ⟨none, 0, env⟩

/-- `getCachedExplanation` with its catch clause: any error is logged and
turned into a miss. -/
def getCachedExplanation (md5 sha : String → String) (env : Env) (filePath : String)
    (cfg : Config) : LookupOut :=
  match tryGetCachedExplanation md5 sha env filePath cfg with
  | .ok out => out
  | .error (_, n) => ⟨none, n, env⟩

/-- Body of the `try` block of `setCachedExplanation`: stat, read, hash,
assemble `cacheData` (with the non-secret config subset), write. -/
def trySetCachedExplanation (md5 sha : String → String) (env : Env) (filePath : String)
    (cfg : Config) (explanation : String) : Except String Env :=
  let cacheKey := getCacheKey md5 filePath cfg
  match env.statOf filePath with
  | .error e => .error e
  | .ok stats =>
    match env.contentOf filePath with
    | .error e => .error e
    | .ok fileContent =>
      let fileHash := sha fileContent
      let cacheConfig : CacheConfigSnapshot := ⟨cfg.mode, cfg.level, cfg.provider, cfg.model⟩
      let cacheData : CacheRecord :=
        ⟨fileHash, stats.size, stats.mtime, explanation, env.nowIso, cacheConfig⟩
      match env.writeOk with
      | .error e => .error e
      | .ok _ => .ok { env with cacheFiles := storeSet env.cacheFiles cacheKey (.ok cacheData) }

/-- `setCachedExplanation` with its catch clause: a write error is logged and
the store is skipped (environment unchanged). -/
def setCachedExplanation (md5 sha : String → String) (env : Env) (filePath : String)
    (cfg : Config) (explanation : String) : Env :=
  match trySetCachedExplanation md5 sha env filePath cfg explanation with
  | .ok env2 => env2
  | .error _ => env

theorem storeGet_storeSet_self {V : Type} (s : List (String × V)) (k : String) (v : V) :
    storeGet (storeSet s k v) k = some v := by
  induction s with
  | nil => simp [storeGet, storeSet]
  | cons hd tl ih =>
    obtain ⟨k', v'⟩ := hd
    by_cases h : k' = k
    · simp [storeGet, storeSet, h]
    · simp [storeGet, storeSet, h, ih]

/-- C1: when the stored record exists (and parses) and the file's current stat
mtime and size both equal the stored mtime and size, the lookup returns the
stored explanation, performs zero file-content reads, and leaves the
environment untouched.  The lookup has no access to any provider, so no
provider call can occur. -/
theorem fast_path_lookup_hit (md5 sha : String → String) (env : Env) (filePath : String)
    (cfg : Config) (cd : CacheRecord) (stats : FileStat)
    (hrec : storeGet env.cacheFiles (getCacheKey md5 filePath cfg) = some (.ok cd))
    (hstat : env.statOf filePath = .ok stats)
    (hmtime : cd.mtime = stats.mtime)
    (hsize : cd.fileSize = stats.size) :
    getCachedExplanation md5 sha env filePath cfg = ⟨some cd.explanation, 0, env⟩ := by
  unfold getCachedExplanation tryGetCachedExplanation
  simp only [hrec, hstat]
  rw [if_pos ⟨hmtime, hsize⟩]

/-- C1 witness data: identity digests, a file "a" of size 2 and mtime 5, and a
matching stored record. -/
def wMd5 : String → String := fun s => s

def wSha : String → String := fun s => s

def wCfg : Config := ⟨"m", "l", "p", "d", "SECRET-KEY", true, none, none, none⟩

def wRecA : CacheRecord := ⟨"CA", 2, 5, "EA", "t0", ⟨"m", "l", "p", "d"⟩⟩

def wEnvFast : Env where
  cacheFiles := [("a-m-l-p-d", .ok wRecA)]
  statOf := fun p => if p = "a" then .ok ⟨5, 2⟩ else .error "ENOENT"
  contentOf := fun p => if p = "a" then .ok "CA" else .error "ENOENT"
  writeOk := .ok ()
  nowIso := "t1"

theorem fast_path_lookup_hit_witness :
    getCachedExplanation wMd5 wSha wEnvFast "a" wCfg = ⟨some wRecA.explanation, 0, wEnvFast⟩ :=
  fast_path_lookup_hit wMd5 wSha wEnvFast "a" wCfg wRecA ⟨5, 2⟩ rfl rfl rfl rfl

/-- C2: when the current size equals the stored size but the mtime differs, the
lookup reads the file content exactly once; if the content hash equals the
stored hash it returns the stored explanation and rewrites the record with
only the mtime field updated (hash, size, explanation, timestamp and config
snapshot unchanged, expressed by the record-update `with mtime`).  The lookup
has no access to any provider, so no provider call can occur. -/
theorem medium_path_lookup_hit (md5 sha : String → String) (env : Env) (filePath : String)
    (cfg : Config) (cd : CacheRecord) (stats : FileStat) (fileContent : String)
    (hrec : storeGet env.cacheFiles (getCacheKey md5 filePath cfg) = some (.ok cd))
    (hstat : env.statOf filePath = .ok stats)
    (hmtime : cd.mtime ≠ stats.mtime)
    (hsize : cd.fileSize = stats.size)
    (hcontent : env.contentOf filePath = .ok fileContent)
    (hhash : cd.fileHash = sha fileContent)
    (hwrite : env.writeOk = .ok ()) :
    getCachedExplanation md5 sha env filePath cfg =
      ⟨some cd.explanation, 1,
       { env with cacheFiles := storeSet env.cacheFiles (getCacheKey md5 filePath cfg)
                    (.ok { cd with mtime := stats.mtime }) }⟩ := by
  unfold getCachedExplanation tryGetCachedExplanation
  simp only [hrec, hstat]
  rw [if_neg (by intro h; exact hmtime h.1)]
  rw [if_pos hsize]
  simp only [hcontent]
  rw [if_pos hhash, hwrite]

/-- C2 witness data: same file as `wEnvFast` but with a touched mtime (9
instead of the stored 5) and identical content. -/
def wEnvMed : Env where
  cacheFiles := [("a-m-l-p-d", .ok wRecA)]
  statOf := fun p => if p = "a" then .ok ⟨9, 2⟩ else .error "ENOENT"
  contentOf := fun p => if p = "a" then .ok "CA" else .error "ENOENT"
  writeOk := .ok ()
  nowIso := "t1"

theorem medium_path_lookup_hit_witness :
    getCachedExplanation wMd5 wSha wEnvMed "a" wCfg =
      ⟨some wRecA.explanation, 1,
       { wEnvMed with cacheFiles := storeSet wEnvMed.cacheFiles (getCacheKey wMd5 "a" wCfg)
                        (.ok { wRecA with mtime := (9 : Int) }) }⟩ :=
  medium_path_lookup_hit wMd5 wSha wEnvMed "a" wCfg wRecA ⟨9, 2⟩ "CA"
    rfl rfl (by decide) rfl rfl rfl rfl

/-- C7: a cache read error makes the lookup return a miss (with the
environment unchanged), and a cache write error makes the store a no-op; in
both cases the catch clause prevents the exception from escaping (both
functions are total and return normally). -/
theorem cache_errors_swallowed (md5 sha : String → String) (envR envW : Env)
    (pR pW : String) (cfgR cfgW : Config) (expl e1 e2 : String) (n : Nat)
    (hread : tryGetCachedExplanation md5 sha envR pR cfgR = .error (e1, n))
    (hwrite : trySetCachedExplanation md5 sha envW pW cfgW expl = .error e2) :
    getCachedExplanation md5 sha envR pR cfgR = ⟨none, n, envR⟩ ∧
    setCachedExplanation md5 sha envW pW cfgW expl = envW := by
  constructor
  · unfold getCachedExplanation
    rw [hread]
  · unfold setCachedExplanation
    rw [hwrite]

/-- C7 witness data: a corrupt cache record (read error) and a vanished file
(write error). -/
def wEnvCorrupt : Env where
  cacheFiles := [("a-m-l-p-d", .error "bad json")]
  statOf := fun p => if p = "a" then .ok ⟨5, 2⟩ else .error "ENOENT"
  contentOf := fun p => if p = "a" then .ok "CA" else .error "ENOENT"
  writeOk := .ok ()
  nowIso := "t1"

def wEnvNoFile : Env where
  cacheFiles := []
  statOf := fun _ => .error "ENOENT"
  contentOf := fun _ => .error "ENOENT"
  writeOk := .ok ()
  nowIso := "t1"

theorem cache_errors_swallowed_witness :
    getCachedExplanation wMd5 wSha wEnvCorrupt "a" wCfg = ⟨none, 0, wEnvCorrupt⟩ ∧
    setCachedExplanation wMd5 wSha wEnvNoFile "a" wCfg "E" = wEnvNoFile :=
  cache_errors_swallowed wMd5 wSha wEnvCorrupt wEnvNoFile "a" "a" wCfg wCfg "E"
    "bad json" "ENOENT" 0 rfl rfl

/-- C9: a successful store writes a full record computed from the file's
current hash, size and mtime, overwriting any prior record for the key; the
persisted config snapshot holds exactly the mode, level, provider and model
fields, and the stored data is invariant under changes to every other config
field (in particular the API key), so secrets are never persisted. -/
theorem store_writes_full_record (md5 sha : String → String) (env : Env) (filePath : String)
    (cfg : Config) (expl : String) (stats : FileStat) (fileContent : String)
    (hstat : env.statOf filePath = .ok stats)
    (hcontent : env.contentOf filePath = .ok fileContent)
    (hwrite : env.writeOk = .ok ()) :
    setCachedExplanation md5 sha env filePath cfg expl =
      { env with cacheFiles := storeSet env.cacheFiles (getCacheKey md5 filePath cfg) (.ok ⟨sha fileContent, stats.size, stats.mtime, expl, env.nowIso, ⟨cfg.mode, cfg.level, cfg.provider, cfg.model⟩⟩) } ∧
    storeGet (setCachedExplanation md5 sha env filePath cfg expl).cacheFiles
        (getCacheKey md5 filePath cfg) =
      some (.ok ⟨sha fileContent, stats.size, stats.mtime, expl, env.nowIso,
                 ⟨cfg.mode, cfg.level, cfg.provider, cfg.model⟩⟩) ∧
    (∀ cfg2 : Config, cfg2.mode = cfg.mode → cfg2.level = cfg.level →
      cfg2.provider = cfg.provider → cfg2.model = cfg.model →
      setCachedExplanation md5 sha env filePath cfg2 expl =
        setCachedExplanation md5 sha env filePath cfg expl) := by
  have hset : setCachedExplanation md5 sha env filePath cfg expl =
      { env with cacheFiles := storeSet env.cacheFiles (getCacheKey md5 filePath cfg) (.ok ⟨sha fileContent, stats.size, stats.mtime, expl, env.nowIso, ⟨cfg.mode, cfg.level, cfg.provider, cfg.model⟩⟩) } := by
    unfold setCachedExplanation trySetCachedExplanation
    rw [hstat, hcontent, hwrite]
  refine ⟨hset, ?_, ?_⟩
  · rw [hset]
    exact storeGet_storeSet_self _ _ _
  · intro cfg2 h1 h2 h3 h4
    unfold setCachedExplanation trySetCachedExplanation getCacheKey
    rw [h1, h2, h3, h4]

theorem store_writes_full_record_witness :
    (setCachedExplanation wMd5 wSha wEnvMed "a" wCfg "E2" =
      { wEnvMed with cacheFiles := storeSet wEnvMed.cacheFiles (getCacheKey wMd5 "a" wCfg) (.ok ⟨wSha "CA", 2, 9, "E2", wEnvMed.nowIso, ⟨"m", "l", "p", "d"⟩⟩) }) ∧
    (storeGet (setCachedExplanation wMd5 wSha wEnvMed "a" wCfg "E2").cacheFiles
        (getCacheKey wMd5 "a" wCfg) =
      some (.ok ⟨wSha "CA", 2, 9, "E2", wEnvMed.nowIso, ⟨"m", "l", "p", "d"⟩⟩)) ∧
    setCachedExplanation wMd5 wSha wEnvMed "a"
        { wCfg with apiKey := "OTHER-SECRET" } "E2" =
      setCachedExplanation wMd5 wSha wEnvMed "a" wCfg "E2" := by
  obtain ⟨h1, h2, h3⟩ := store_writes_full_record wMd5 wSha wEnvMed "a" wCfg "E2" ⟨9, 2⟩ "CA"
    rfl rfl rfl
  exact ⟨h1, h2, h3 { wCfg with apiKey := "OTHER-SECRET" } rfl rfl rfl rfl⟩

/-! ### Retry with exponential backoff (AIEngine.retryWithBackoff) -/

/-- JS `v || d` on an optional number: `undefined` and `0` are falsy. -/
def jsOrDefault (v : Option Nat) (d : Nat) : Nat :=
  match v with
  | none => d
  | some 0 => d
  | some k => k

/-- Observable outcome of a `retryWithBackoff` run: the returned value or the
error finally rethrown, the number of invocations of `fn`, and the list of
waits performed (in ms, in order). -/
structure RetryOut (ε α : Type) where
  result : Except ε α
  calls : Nat
  delays : List Nat
deriving Repr

/-- The `for (let i = 0; i <= retries; i++)` loop of `retryWithBackoff`.
`fuel` is the number of retries still allowed after the current attempt,
`k` the index of the current invocation, `d` the current delay.  On failure
with fuel left, the loop waits `d`, doubles the delay and retries; with no
fuel left the error is rethrown. -/
def retryLoop (fn : Nat → Except ε α) : Nat → Nat → Nat → RetryOut ε α
  | fuel, k, d =>
    match fn k with
    | .ok a => ⟨.ok a, 1, []⟩
    | .error e =>
      match fuel with
      | 0 => ⟨.error e, 1, []⟩
      | fuel' + 1 =>
        let rest := retryLoop fn fuel' (k + 1) (2 * d)
        ⟨rest.result, rest.calls + 1, d :: rest.delays⟩

/-- `retryWithBackoff`: `retries = config.retry?.attempts || 3` and
`delay = config.retry?.delay || 1000`; invocation indices start at 0. -/
def retryWithBackoff (attempts delay : Option Nat) (fn : Nat → Except ε α) : RetryOut ε α :=
  retryLoop fn (jsOrDefault attempts 3) 0 (jsOrDefault delay 1000)

theorem retryLoop_all_fail (fn : Nat → Except ε α) (msgs : Nat → ε) :
    ∀ (fuel k d : Nat), (∀ j, j ≤ fuel → fn (k + j) = .error (msgs (k + j))) →
      retryLoop fn fuel k d =
        ⟨.error (msgs (k + fuel)), fuel + 1, (List.range fuel).map (fun i => d * 2 ^ i)⟩ := by
  intro fuel
  induction fuel with
  | zero =>
    intro k d h
    have h0 := h 0 (Nat.le_refl 0)
    rw [Nat.add_zero] at h0
    unfold retryLoop
    simp [h0]
  | succ fuel ih =>
    intro k d h
    have h0 := h 0 (Nat.zero_le _)
    rw [Nat.add_zero] at h0
    have hrest := ih (k + 1) (2 * d) (by
      intro j hj
      have := h (j + 1) (Nat.succ_le_succ hj)
      rw [← Nat.add_assoc] at this
      rw [Nat.add_right_comm k 1 j]
      exact this)
    unfold retryLoop
    simp only [h0, hrest, RetryOut.mk.injEq]
    refine ⟨?_, ?_, ?_⟩
    · rw [Nat.add_right_comm k 1 fuel, Nat.add_assoc]
    · simp
    · rw [List.range_succ_eq_map, List.map_cons, List.map_map]
      refine congrArg₂ _ (by rw [pow_zero, Nat.mul_one]) ?_
      refine List.map_congr_left ?_
      intro i _
      simp only [Function.comp, pow_succ]
      ring

/-- C4 counterexample: a function that fails exactly once and then succeeds,
with `attempts = 1`.  After 1 consecutive failure the wrapper does not raise
the error: it retries and returns the success (2 invocations in total), so
"raises the last error to the caller after `attempts` consecutive failures"
is false as stated — the error is raised only after `attempts + 1`
consecutive failures (1 initial + `attempts` retries). -/
def retryCexFn : Nat → Except String String :=
  fun k => if k = 0 then .error "boom" else .ok "ok"

theorem retry_raises_after_attempts_counterexample :
    (retryWithBackoff (some 1) (some 1000) retryCexFn).result = .ok "ok" ∧
    (retryWithBackoff (some 1) (some 1000) retryCexFn).calls = 2 := by
  exact ⟨rfl, rfl⟩

/-- C4 (amended): the wrapper uses configurable attempts (default 3 via
`jsOrDefault`) and base delay (default 1000 ms); when the wrapped function
fails on every attempt it waits the base delay after the first failure,
doubles the delay before each subsequent retry (delays are
`delay * 2 ^ i`), and raises the last error after `attempts + 1` consecutive
failures (the initial call plus `attempts` retries). -/
theorem retryWithBackoff_exhaustion (attempts delay : Option Nat)
    (fn : Nat → Except String α) (msgs : Nat → String)
    (hfail : ∀ k, k ≤ jsOrDefault attempts 3 → fn k = .error (msgs k)) :
    retryWithBackoff attempts delay fn =
      ⟨.error (msgs (jsOrDefault attempts 3)), jsOrDefault attempts 3 + 1,
       (List.range (jsOrDefault attempts 3)).map (fun i => jsOrDefault delay 1000 * 2 ^ i)⟩ := by
  unfold retryWithBackoff
  have := retryLoop_all_fail fn msgs (jsOrDefault attempts 3) 0 (jsOrDefault delay 1000)
    (by intro j hj; rw [Nat.zero_add]; exact hfail j hj)
  rw [this, Nat.zero_add]

theorem retryWithBackoff_exhaustion_witness :
    retryWithBackoff (some 2) (some 10) (fun _ => (.error "e" : Except String String)) =
      ⟨.error "e", 3, [10, 20]⟩ := by
  have := retryWithBackoff_exhaustion (some 2) (some 10)
    (fun _ => (.error "e" : Except String String)) (fun _ => "e") (fun _ _ => rfl)
  rw [this]
  rfl

/-! ### Per-file explanation (AIEngine.explainFile) -/

/-- A file descriptor as produced by the analyzer.  `content` is nullable
(the scheduler clears it after processing). -/
structure FileAnalysis where
  path : String
  relativePath : String
  language : String
  content : Option String
deriving DecidableEq, Repr

/-- Token usage metadata optionally returned by the provider. -/
structure UsageMetadata where
  promptTokens : Option Nat
  completionTokens : Option Nat
  totalTokens : Option Nat
deriving DecidableEq, Repr

/-- A provider response: `result.content` plus optional usage metadata. -/
structure ProviderResponse where
  content : String
  metadata : Option UsageMetadata
deriving DecidableEq, Repr

/-- The per-run token usage aggregate (`this.tokenUsage`). -/
structure TokenUsage where
  totalInputTokens : Nat
  totalOutputTokens : Nat
  totalTokens : Nat
  cachedFiles : Nat
  processedFiles : Nat
deriving DecidableEq, Repr

def TokenUsage.zero : TokenUsage := ⟨0, 0, 0, 0, 0⟩

/-- Per-file result (`{...fileAnalysis, explanation, cached}`): the descriptor
snapshot taken by the spread, the explanation text and the cached flag. -/
structure ExplainResult where
  file : FileAnalysis
  explanation : String
  cached : Bool
deriving DecidableEq, Repr

/-- Mutable engine state threaded through a run: the token accountant, the
file-system/cache environment, and an instrumentation counter of provider
invocations (`modelInstance.invoke` calls). -/
structure EngineState where
  usage : TokenUsage
  env : Env
  providerCalls : Nat

/-- External collaborators of the engine, as parameters:
`md5`/`sha256` are the crypto digests, `buildPrompt` is the prompt-template
collaborator, `estimateIn`/`estimateOut` the token estimator
(`estimateTokens`), and `providerFn k prompt` the outcome of the k-th provider
invocation of the run (indexed by the instrumentation counter). -/
structure EngineParams where
  md5 : String → String
  sha256 : String → String
  buildPrompt : FileAnalysis → String
  estimateIn : String → Nat
  estimateOut : String → Option UsageMetadata → Nat
  providerFn : Nat → String → Except String ProviderResponse

/-- JS `if (file && file.content) file.content = null`: clears the content
reference when it is truthy (non-null, non-empty). -/
def clearContent (f : FileAnalysis) : FileAnalysis :=
  match f.content with
  | none => f
  | some c => if c = "" then f else { f with content := none }

/-- A descriptor whose content buffer has been released (JS null) or was
already empty. -/
def contentCleared (f : FileAnalysis) : Prop :=
  f.content = none ∨ f.content = some ""

/-- Cache-miss path of `explainFile`: build the prompt, account input tokens
and `processedFiles`, invoke the provider through `retryWithBackoff`; on
success account output tokens, store to cache (when enabled) and clear the
content reference; on exhausted retries the catch clause converts the error
into an error-text explanation.  Returns (new state, post-call descriptor,
result). -/
def explainMiss (P : EngineParams) (cfg : Config) (st : EngineState) (file : FileAnalysis) :
    EngineState × FileAnalysis × ExplainResult :=
  let prompt := P.buildPrompt file
  let inputTokens := P.estimateIn prompt
  let st1 : EngineState :=
    { st with usage := { st.usage with
        totalInputTokens := st.usage.totalInputTokens + inputTokens,
        processedFiles := st.usage.processedFiles + 1 } }
  let out := retryWithBackoff cfg.retryAttempts cfg.retryDelay
    (fun k => P.providerFn (st1.providerCalls + k) prompt)
  let st2 : EngineState := { st1 with providerCalls := st1.providerCalls + out.calls }
  match out.result with
  | .ok r =>
    let response := r.content
    let outputTokens := P.estimateOut response r.metadata
    let st3 : EngineState :=
      { st2 with usage := { st2.usage with
          totalOutputTokens := st2.usage.totalOutputTokens + outputTokens,
          totalTokens := st2.usage.totalTokens + inputTokens + outputTokens } }
    let st4 : EngineState :=
      if !file.path.isEmpty && cfg.cache then
        { st3 with env := setCachedExplanation P.md5 P.sha256 st3.env file.path cfg response }
      else st3
    let file1 := clearContent file
    (st4, file1, ⟨file1, response, false⟩)
  | .error e =>
    let file1 := clearContent file
    (st2, file1, ⟨file1, "Error generating explanation: " ++ e, false⟩)

/-- `explainFile`: consult the cache first (when the descriptor has a path and
cache is enabled); a truthy cached explanation is returned directly with the
`cachedFiles` counter bumped; otherwise fall through to the miss path. -/
def explainFile (P : EngineParams) (cfg : Config) (st : EngineState) (file : FileAnalysis) :
    EngineState × FileAnalysis × ExplainResult :=
  if !file.path.isEmpty && cfg.cache then
    let out := getCachedExplanation P.md5 P.sha256 st.env file.path cfg
    let st1 : EngineState := { st with env := out.env }
    match out.result with
    | some cached =>
      if cached = "" then explainMiss P cfg st1 file
      else
        ({ st1 with usage := { st1.usage with cachedFiles := st1.usage.cachedFiles + 1 } },
         file, ⟨file, cached, true⟩)
    | none => explainMiss P cfg st1 file
  else explainMiss P cfg st file

/-- A lookup that misses never changes the environment (no mtime refresh
happens on any miss path, including the swallowed-error path). -/
theorem getCached_none_env (md5 sha : String → String) (env : Env) (p : String) (cfg : Config)
    (h : (getCachedExplanation md5 sha env p cfg).result = none) :
    (getCachedExplanation md5 sha env p cfg).env = env := by
  unfold getCachedExplanation at h ⊢
  rcases hres : tryGetCachedExplanation md5 sha env p cfg with ⟨msg, n⟩ | out
  · rfl
  · rw [hres] at h
    unfold tryGetCachedExplanation at hres
    rcases hg : storeGet env.cacheFiles (getCacheKey md5 p cfg) with _ | pr
    · simp only [hg] at hres
      cases hres
      rfl
    · rcases pr with e | cd
      · simp only [hg] at hres
        cases hres
      · simp only [hg] at hres
        rcases hs : env.statOf p with e | stats
        · simp only [hs] at hres
          cases hres
        · simp only [hs] at hres
          by_cases h1 : cd.mtime = stats.mtime ∧ cd.fileSize = stats.size
          · rw [if_pos h1] at hres
            cases hres
            exact Option.noConfusion h
          · rw [if_neg h1] at hres
            by_cases h2 : cd.fileSize = stats.size
            · rw [if_pos h2] at hres
              rcases hc : env.contentOf p with e | fileContent
              · simp only [hc] at hres
                cases hres
              · simp only [hc] at hres
                by_cases h3 : cd.fileHash = sha fileContent
                · rw [if_pos h3] at hres
                  rcases hw : env.writeOk with e | u
                  · simp only [hw] at hres
                    cases hres
                  · simp only [hw] at hres
                    cases hres
                    exact Option.noConfusion h
                · rw [if_neg h3] at hres
                  cases hres
                  rfl
            · rw [if_neg h2] at hres
              cases hres
              rfl

/-- Helper for C3: on the cache-miss path with a provider that fails on every
invocation and `retry.attempts = 2`, `explainFile` makes exactly 3 provider
invocations and returns the catch clause's error-text result. -/
theorem explainMiss_all_fail (P : EngineParams) (cfg : Config) (st : EngineState)
    (file : FileAnalysis) (msgs : Nat → String)
    (hfail : ∀ k prompt, P.providerFn k prompt = .error (msgs k))
    (hatt : cfg.retryAttempts = some 2) :
    (explainMiss P cfg st file).1.providerCalls = st.providerCalls + 3 ∧
    (explainMiss P cfg st file).2.2.explanation =
      "Error generating explanation: " ++ msgs (st.providerCalls + 2) ∧
    (explainMiss P cfg st file).2.2.cached = false := by
  have hretry := retryWithBackoff_exhaustion cfg.retryAttempts cfg.retryDelay
    (fun k => P.providerFn (st.providerCalls + k) (P.buildPrompt file))
    (fun k => msgs (st.providerCalls + k))
    (by intro k _; exact hfail (st.providerCalls + k) (P.buildPrompt file))
  rw [hatt] at hretry
  unfold explainMiss
  rw [hatt]
  simp only [hretry]
  refine ⟨?_, ?_, ?_⟩ <;> simp [jsOrDefault]

/-- C3: with a provider adapter that fails on every invocation and
`retry.attempts = 2`, `explainFile` on a cache miss invokes the adapter
exactly 3 times (1 initial + 2 retries) and returns normally with an
error-text explanation — the model is a total function, so no exception
escapes the run. -/
theorem retry_exhaustion_explainFile (P : EngineParams) (cfg : Config) (st : EngineState)
    (file : FileAnalysis) (msgs : Nat → String)
    (hfail : ∀ k prompt, P.providerFn k prompt = .error (msgs k))
    (hatt : cfg.retryAttempts = some 2)
    (hmiss : (getCachedExplanation P.md5 P.sha256 st.env file.path cfg).result = none) :
    (explainFile P cfg st file).1.providerCalls = st.providerCalls + 3 ∧
    (explainFile P cfg st file).2.2.explanation =
      "Error generating explanation: " ++ msgs (st.providerCalls + 2) ∧
    (explainFile P cfg st file).2.2.cached = false := by
  have henv := getCached_none_env P.md5 P.sha256 st.env file.path cfg hmiss
  unfold explainFile
  by_cases hc : (!file.path.isEmpty && cfg.cache) = true
  · rw [if_pos hc]
    simp only [hmiss, henv]
    exact explainMiss_all_fail P cfg st file msgs hfail hatt
  · rw [if_neg hc]
    exact explainMiss_all_fail P cfg st file msgs hfail hatt

/-- C3 witness data: an empty cache, a provider that always fails with "x",
and retry attempts = 2. -/
def wCfgRetry : Config := ⟨"m", "l", "p", "d", "SECRET-KEY", true, none, some 2, some 1⟩

def wParamsFail : EngineParams where
  md5 := fun s => s
  sha256 := fun s => s
  buildPrompt := fun f => f.path
  estimateIn := fun s => s.length
  estimateOut := fun s _ => s.length
  providerFn := fun _ _ => .error "x"

def wFileB : FileAnalysis := ⟨"b", "b", "js", some "CB"⟩

def wStEmpty : EngineState := ⟨TokenUsage.zero, wEnvNoFile, 0⟩

theorem retry_exhaustion_explainFile_witness :
    (explainFile wParamsFail wCfgRetry wStEmpty wFileB).1.providerCalls =
      wStEmpty.providerCalls + 3 ∧
    (explainFile wParamsFail wCfgRetry wStEmpty wFileB).2.2.explanation =
      "Error generating explanation: " ++ "x" ∧
    (explainFile wParamsFail wCfgRetry wStEmpty wFileB).2.2.cached = false :=
  retry_exhaustion_explainFile wParamsFail wCfgRetry wStEmpty wFileB (fun _ => "x")
    (fun _ _ => rfl) rfl rfl

/-! ### Batch scheduler (AIEngine.processFilesInBatches /
processFilesWithRequestBatching / generateExplanations) -/

/-- Effective concurrency:
`Math.min(config.concurrency || DEFAULT_CONCURRENCY, MAX_CONCURRENCY)` with
`DEFAULT_CONCURRENCY = 3` and `MAX_CONCURRENCY = 10`. -/
def effectiveConcurrency (c : Option Nat) : Nat :=
  min (jsOrDefault c 3) 10

/-- Fuel-indexed slicing loop: `for (i = 0; i < n; i += conc) slice(i, i+conc)`.
The fuel argument (instantiated with the list length) only forces structural
termination; with `conc ≥ 1` it is never exhausted. -/
def chunksGo (conc : Nat) : Nat → List α → List (List α)
  | _, [] => []
  | 0, _ :: _ => []
  | fuel + 1, x :: xs => (x :: xs).take conc :: chunksGo conc fuel ((x :: xs).drop conc)

/-- Partition a list into consecutive batches of size `conc` (last batch may
be shorter). -/
def chunks (conc : Nat) (l : List α) : List (List α) :=
  chunksGo conc l.length l

/-- Write a value into a result slot (`results[index] = v`); out-of-range
writes are dropped. The pre-sized array of `none` models the result array
every index of which is written exactly once. -/
def setSlot {β : Type} : List (Option β) → Nat → β → List (Option β)
  | [], _, _ => []
  | _ :: xs, 0, v => some v :: xs
  | x :: xs, i + 1, v => x :: setSlot xs i v

/-- Fold a list of index-keyed writes (in settlement order) over a pre-sized
result array: this is how both schedulers place results
(`results[globalIndex] = ...`). -/
def settleResults {β : Type} (n : Nat) (ws : List (Nat × β)) : List (Option β) :=
  ws.foldl (fun acc w => setSlot acc w.1 w.2) (List.replicate n none)

/-- Run the tasks of one batch of `processFilesInBatches`: each task calls
`processFn` (= `explainFile`), then the wrapper clears the descriptor's
content reference; the settled value is recorded as an index-keyed write.
Returns (state, post-run descriptors in batch order, writes). -/
def runBatchTasks (P : EngineParams) (cfg : Config) :
    EngineState → List (Nat × FileAnalysis) →
      EngineState × List FileAnalysis × List (Nat × Option ExplainResult)
  | st, [] => (st, [], [])
  | st, (i, f) :: rest =>
    let step := explainFile P cfg st f
    let f2 := clearContent step.2.1
    let next := runBatchTasks P cfg step.1 rest
    (next.1, f2 :: next.2.1, (i, some step.2.2) :: next.2.2)

/-- Run consecutive batches: the settle-all barrier means a batch's tasks all
settle before the next batch starts, so batches compose sequentially. -/
def runBatches (P : EngineParams) (cfg : Config) :
    EngineState → List (List (Nat × FileAnalysis)) →
      EngineState × List FileAnalysis × List (Nat × Option ExplainResult)
  | st, [] => (st, [], [])
  | st, b :: bs =>
    let first := runBatchTasks P cfg st b
    let rest := runBatches P cfg first.1 bs
    (rest.1, first.2.1 ++ rest.2.1, first.2.2 ++ rest.2.2)

/-- Outcome of a scheduler run: final engine state, the post-run descriptors
(in input order), the index-keyed writes in settlement order, and the result
array they produce. -/
structure SchedOut where
  state : EngineState
  files : List FileAnalysis
  writes : List (Nat × Option ExplainResult)
  results : List (Option (Option ExplainResult))

/-- `processFilesInBatches` with `explainFile` as processing function:
partition the enumerated descriptors into batches of the effective
concurrency, run batch after batch, and place each settled value at its
original index. -/
def processFilesInBatchesEngine (P : EngineParams) (cfg : Config) (st : EngineState)
    (files : List FileAnalysis) : SchedOut :=
  let conc := effectiveConcurrency cfg.concurrency
  let run := runBatches P cfg st (chunks conc files.enum)
  ⟨run.1, run.2.1, run.2.2, settleResults files.length run.2.2⟩

/-- Phase-1 outcome of the request-batching path for one batch element:
either a cache hit (the uncleared descriptor and its result write) or an
entry of `batchData` destined for the provider. -/
structure BatchItem where
  file : FileAnalysis
  prompt : String
  inputTokens : Nat
  globalIndex : Nat

inductive PrepOut where
  | hit (file : FileAnalysis) (write : Nat × Option ExplainResult)
  | item (b : BatchItem)

/-- Phase 1 of a request batch (OpenAI path): sequentially check the cache for
each batch element; hits are written immediately (`cachedFiles++`, descriptor
left untouched); misses get a prompt built and input tokens accounted
(`processedFiles++`) and join `batchData`. -/
def prepPhase (P : EngineParams) (cfg : Config) :
    EngineState → List (Nat × FileAnalysis) → EngineState × List PrepOut
  | st, [] => (st, [])
  | st, (i, f) :: rest =>
    if cfg.cache then
      let out := getCachedExplanation P.md5 P.sha256 st.env f.path cfg
      let st1 : EngineState := { st with env := out.env }
      match out.result with
      | some cached =>
        if cached = "" then
          let prompt := P.buildPrompt f
          let inputTokens := P.estimateIn prompt
          let st2 : EngineState :=
            { st1 with usage := { st1.usage with
                totalInputTokens := st1.usage.totalInputTokens + inputTokens,
                processedFiles := st1.usage.processedFiles + 1 } }
          let next := prepPhase P cfg st2 rest
          (next.1, .item ⟨f, prompt, inputTokens, i⟩ :: next.2)
        else
          let st2 : EngineState :=
            { st1 with usage := { st1.usage with cachedFiles := st1.usage.cachedFiles + 1 } }
          let next := prepPhase P cfg st2 rest
          (next.1, .hit f (i, some ⟨f, cached, true⟩) :: next.2)
      | none =>
        let prompt := P.buildPrompt f
        let inputTokens := P.estimateIn prompt
        let st2 : EngineState :=
          { st1 with usage := { st1.usage with
              totalInputTokens := st1.usage.totalInputTokens + inputTokens,
              processedFiles := st1.usage.processedFiles + 1 } }
        let next := prepPhase P cfg st2 rest
        (next.1, .item ⟨f, prompt, inputTokens, i⟩ :: next.2)
    else
      let prompt := P.buildPrompt f
      let inputTokens := P.estimateIn prompt
      let st2 : EngineState :=
        { st with usage := { st.usage with
            totalInputTokens := st.usage.totalInputTokens + inputTokens,
            processedFiles := st.usage.processedFiles + 1 } }
      let next := prepPhase P cfg st2 rest
      (next.1, .item ⟨f, prompt, inputTokens, i⟩ :: next.2)

/-- Phase 2 of a request batch: invoke the provider (wrapped in
`retryWithBackoff`) for every `batchData` entry; on success account output
tokens, cache, clear the content reference and write the result; on failure
clear the content reference and write a null slot. -/
def invokePhase (P : EngineParams) (cfg : Config) :
    EngineState → List BatchItem →
      EngineState × List (Nat × Option ExplainResult)
  | st, [] => (st, [])
  | st, b :: rest =>
    let out := retryWithBackoff cfg.retryAttempts cfg.retryDelay
      (fun k => P.providerFn (st.providerCalls + k) b.prompt)
    let st1 : EngineState := { st with providerCalls := st.providerCalls + out.calls }
    match out.result with
    | .ok r =>
      let response := r.content
      let outputTokens := P.estimateOut response r.metadata
      let st2 : EngineState :=
        { st1 with usage := { st1.usage with
            totalOutputTokens := st1.usage.totalOutputTokens + outputTokens,
            totalTokens := st1.usage.totalTokens + b.inputTokens + outputTokens } }
      let st3 : EngineState :=
        if cfg.cache then
          { st2 with env := setCachedExplanation P.md5 P.sha256 st2.env b.file.path cfg response }
        else st2
      let f1 := clearContent b.file
      let next := invokePhase P cfg st3 rest
      (next.1, (b.globalIndex, some ⟨f1, response, false⟩) :: next.2)
    | .error _ =>
      let _f1 := clearContent b.file
      let next := invokePhase P cfg st1 rest
      (next.1, (b.globalIndex, none) :: next.2)

/-- One batch of the request-batching path: phase 1, then phase 2 over the
collected `batchData`.  The post-run descriptors keep cache-hit descriptors
untouched and clear the content of provider-bound descriptors. -/
def requestBatch (P : EngineParams) (cfg : Config) (st : EngineState)
    (batch : List (Nat × FileAnalysis)) :
    EngineState × List FileAnalysis × List (Nat × Option ExplainResult) :=
  let prep := prepPhase P cfg st batch
  let items := prep.2.filterMap (fun p => match p with | .item b => some b | .hit _ _ => none)
  let hitWrites := prep.2.filterMap (fun p => match p with | .hit _ w => some w | .item _ => none)
  let inv := invokePhase P cfg prep.1 items
  let finalFiles := prep.2.map (fun p => match p with
    | .hit f _ => f
    | .item b => clearContent b.file)
  (inv.1, finalFiles, hitWrites ++ inv.2)

/-- Consecutive request batches. -/
def runRequestBatches (P : EngineParams) (cfg : Config) :
    EngineState → List (List (Nat × FileAnalysis)) →
      EngineState × List FileAnalysis × List (Nat × Option ExplainResult)
  | st, [] => (st, [], [])
  | st, b :: bs =>
    let first := requestBatch P cfg st b
    let rest := runRequestBatches P cfg first.1 bs
    (rest.1, first.2.1 ++ rest.2.1, first.2.2 ++ rest.2.2)

/-- `processFilesWithRequestBatching` (default processing function, as invoked
by `generateExplanations`): for non-OpenAI providers it falls back to
`processFilesInBatches`; for OpenAI it runs the two-phase request batches. -/
def processFilesWithRequestBatching (P : EngineParams) (cfg : Config) (st : EngineState)
    (files : List FileAnalysis) : SchedOut :=
  if cfg.provider ≠ "openai" then processFilesInBatchesEngine P cfg st files
  else
    let conc := effectiveConcurrency cfg.concurrency
    let run := runRequestBatches P cfg st (chunks conc files.enum)
    ⟨run.1, run.2.1, run.2.2, settleResults files.length run.2.2⟩

/-- `generateExplanations` on a list of descriptors in a per-file mode (the
`Array.isArray` branch; the codebase-level architecture/onboarding branch is a
separate two-phase pipeline outside this embedding): reset the token usage
counters, then run the request-batching scheduler. -/
def generateExplanations (P : EngineParams) (cfg : Config) (st : EngineState)
    (files : List FileAnalysis) : SchedOut :=
  let st1 : EngineState := { st with usage := TokenUsage.zero }
  processFilesWithRequestBatching P cfg st1 files

/-! ### C8: usage accounting -/

/-- Concrete two-file scenario: file "a" has a valid cache record, file "b"
has none; the provider succeeds immediately. -/
def wCfgOpenai : Config := ⟨"m", "l", "openai", "d", "SECRET-KEY", true, none, none, none⟩

def wRecOA : CacheRecord := ⟨"CA", 2, 5, "EA", "t0", ⟨"m", "l", "openai", "d"⟩⟩

def wEnvAB : Env where
  cacheFiles := [("a-m-l-openai-d", .ok wRecOA)]
  statOf := fun p => if p = "a" then .ok ⟨5, 2⟩ else if p = "b" then .ok ⟨7, 3⟩ else .error "ENOENT"
  contentOf := fun p => if p = "a" then .ok "CA" else if p = "b" then .ok "CB" else .error "ENOENT"
  writeOk := .ok ()
  nowIso := "t1"

def wParamsOk : EngineParams where
  md5 := fun s => s
  sha256 := fun s => s
  buildPrompt := fun f => f.path
  estimateIn := fun s => s.length
  estimateOut := fun s _ => s.length
  providerFn := fun _ _ => .ok ⟨"EB", none⟩

def wFileA : FileAnalysis := ⟨"a", "a", "js", some "CA"⟩

/-- C8: `generateExplanations` resets the usage counters at the start of the
run — the final counters are independent of the initial counters `u0` — and
in a run over two files where "a" is a cache hit and "b" a miss it ends with
`cachedFiles = 1`, `processedFiles = 1` and exactly one provider invocation
(the instrumentation counter advances from `c0` to `c0 + 1`). -/
theorem usage_accounting_run (u0 : TokenUsage) (c0 : Nat) :
    (generateExplanations wParamsOk wCfgOpenai ⟨u0, wEnvAB, c0⟩ [wFileA, wFileB]).state.usage.cachedFiles = 1 ∧
    (generateExplanations wParamsOk wCfgOpenai ⟨u0, wEnvAB, c0⟩ [wFileA, wFileB]).state.usage.processedFiles = 1 ∧
    (generateExplanations wParamsOk wCfgOpenai ⟨u0, wEnvAB, c0⟩ [wFileA, wFileB]).state.providerCalls = c0 + 1 :=
  ⟨rfl, rfl, rfl⟩

/-! ### C10: content clearing -/

/-- Content of a descriptor survives or is cleared: auxiliary facts. -/
theorem clearContent_cleared (f : FileAnalysis) : contentCleared (clearContent f) := by
  unfold clearContent contentCleared
  rcases hc : f.content with _ | c
  · left
    simp [hc]
  · by_cases h : c = ""
    · right
      simp [hc, h]
    · left
      simp [hc, h]

theorem runBatchTasks_files_cleared (P : EngineParams) (cfg : Config) :
    ∀ (st : EngineState) (l : List (Nat × FileAnalysis)),
      ∀ f ∈ (runBatchTasks P cfg st l).2.1, contentCleared f := by
  intro st l
  induction l generalizing st with
  | nil => intro f hf; cases hf
  | cons hd tl ih =>
    obtain ⟨i, g⟩ := hd
    intro f hf
    unfold runBatchTasks at hf
    rcases List.mem_cons.mp hf with h | h
    · rw [h]
      exact clearContent_cleared _
    · exact ih _ f h

theorem runBatches_files_cleared (P : EngineParams) (cfg : Config) :
    ∀ (st : EngineState) (bs : List (List (Nat × FileAnalysis))),
      ∀ f ∈ (runBatches P cfg st bs).2.1, contentCleared f := by
  intro st bs
  induction bs generalizing st with
  | nil => intro f hf; cases hf
  | cons b rest ih =>
    intro f hf
    unfold runBatches at hf
    rcases List.mem_append.mp hf with h | h
    · exact runBatchTasks_files_cleared P cfg st b f h
    · exact ih _ f h

/-- C10 counterexample: in the OpenAI request-batching path a descriptor
served from cache is not cleared.  Running the scheduler on the single file
"a" (a cache hit) returns the descriptor unchanged, with its content still
the original buffer — refuting "for every file descriptor processed by the
scheduler, the content field is cleared once its task settles ... served from
cache". -/
def wStAB : EngineState := ⟨TokenUsage.zero, wEnvAB, 0⟩

theorem cache_hit_content_not_cleared_counterexample :
    (processFilesWithRequestBatching wParamsOk wCfgOpenai wStAB [wFileA]).files = [wFileA] ∧
    wFileA.content = some "CA" :=
  ⟨rfl, rfl⟩

/-- C10 (amended): in the fallback batch scheduler (used for every non-OpenAI
provider), each processed descriptor's content is cleared once its task
settles, whether it succeeded, failed, or was served from cache; in the
OpenAI request-batching path cache-hit descriptors are not cleared (see the
counterexample). -/
theorem fallback_scheduler_clears_content (P : EngineParams) (cfg : Config)
    (st : EngineState) (files : List FileAnalysis)
    (hprov : cfg.provider ≠ "openai") :
    ∀ f ∈ (processFilesWithRequestBatching P cfg st files).files, contentCleared f := by
  intro f hf
  unfold processFilesWithRequestBatching at hf
  rw [if_pos hprov] at hf
  exact runBatches_files_cleared P cfg st _ f hf

theorem fallback_scheduler_clears_content_witness :
    contentCleared
      (((processFilesWithRequestBatching wParamsFail wCfg wStEmpty [wFileA, wFileB]).files).getD 0 wFileA) :=
  fallback_scheduler_clears_content wParamsFail wCfg wStEmpty [wFileA, wFileB] (by decide) _
    (by decide)

/-! ### C5: output order mirrors input order -/

theorem length_setSlot {β : Type} : ∀ (l : List (Option β)) (i : Nat) (v : β),
    (setSlot l i v).length = l.length
  | [], _, _ => rfl
  | _ :: xs, 0, v => rfl
  | x :: xs, i + 1, v => by
    unfold setSlot
    rw [List.length_cons, List.length_cons, length_setSlot]

theorem getElem?_setSlot_self {β : Type} : ∀ (l : List (Option β)) (i : Nat) (v : β),
    i < l.length → (setSlot l i v)[i]? = some (some v)
  | [], i, v, h => by cases h
  | x :: xs, 0, v, h => by simp [setSlot]
  | x :: xs, i + 1, v, h => by
    show (x :: setSlot xs i v)[i + 1]? = some (some v)
    rw [List.getElem?_cons_succ]
    exact getElem?_setSlot_self xs i v (Nat.lt_of_succ_lt_succ h)

theorem getElem?_setSlot_ne {β : Type} : ∀ (l : List (Option β)) (i j : Nat) (v : β),
    i ≠ j → (setSlot l i v)[j]? = l[j]?
  | [], _, _, _, _ => rfl
  | x :: xs, 0, 0, v, h => absurd rfl h
  | x :: xs, 0, j + 1, v, h => by
    show (some v :: xs)[j + 1]? = (x :: xs)[j + 1]?
    rw [List.getElem?_cons_succ, List.getElem?_cons_succ]
  | x :: xs, i + 1, 0, v, h => by simp [setSlot]
  | x :: xs, i + 1, j + 1, v, h => by
    show (x :: setSlot xs i v)[j + 1]? = (x :: xs)[j + 1]?
    rw [List.getElem?_cons_succ, List.getElem?_cons_succ]
    exact getElem?_setSlot_ne xs i j v (fun he => h (by rw [he]))

theorem setSlot_comm {β : Type} : ∀ (l : List (Option β)) (i j : Nat) (v w : β),
    i ≠ j → setSlot (setSlot l i v) j w = setSlot (setSlot l j w) i v
  | [], _, _, _, _, _ => rfl
  | x :: xs, 0, 0, v, w, h => absurd rfl h
  | x :: xs, 0, j + 1, v, w, h => rfl
  | x :: xs, i + 1, 0, v, w, h => rfl
  | x :: xs, i + 1, j + 1, v, w, h => by
    show x :: setSlot (setSlot xs i v) j w = x :: setSlot (setSlot xs j w) i v
    rw [setSlot_comm xs i j v w (fun he => h (by rw [he]))]

theorem length_foldl_setSlot {β : Type} : ∀ (ws : List (Nat × β)) (acc : List (Option β)),
    (ws.foldl (fun a w => setSlot a w.1 w.2) acc).length = acc.length
  | [], acc => rfl
  | w :: rest, acc => by
    rw [List.foldl_cons, length_foldl_setSlot, length_setSlot]

theorem length_settleResults {β : Type} (n : Nat) (ws : List (Nat × β)) :
    (settleResults n ws).length = n := by
  unfold settleResults
  rw [length_foldl_setSlot, List.length_replicate]

theorem getElem?_foldl_setSlot_not_mem {β : Type} :
    ∀ (ws : List (Nat × β)) (acc : List (Option β)) (i : Nat),
      i ∉ ws.map Prod.fst →
      (ws.foldl (fun a w => setSlot a w.1 w.2) acc)[i]? = acc[i]?
  | [], acc, i, _ => rfl
  | w :: rest, acc, i, h => by
    rw [List.map_cons] at h
    have h1 : w.1 ≠ i := fun he => h (by rw [he]; exact List.mem_cons_self _ _)
    have h2 : i ∉ rest.map Prod.fst := fun hm => h (List.mem_cons_of_mem _ hm)
    rw [List.foldl_cons, getElem?_foldl_setSlot_not_mem rest _ i h2, getElem?_setSlot_ne _ _ _ _ h1]

theorem nodup_map_inj {α β : Type} (f : α → β) :
    ∀ (l : List α), (l.map f).Nodup → ∀ x ∈ l, ∀ y ∈ l, f x = f y → x = y := by
  intro l
  induction l with
  | nil => intro _ x hx; cases hx
  | cons a tl ih =>
    intro hnd x hx y hy hxy
    rw [List.map_cons, List.nodup_cons] at hnd
    rcases List.mem_cons.mp hx with hxa | hxtl
    · rcases List.mem_cons.mp hy with hya | hytl
      · rw [hxa, hya]
      · exfalso
        apply hnd.1
        have hm : f y ∈ tl.map f := List.mem_map_of_mem f hytl
        rw [← hxy, hxa] at hm
        exact hm
    · rcases List.mem_cons.mp hy with hya | hytl
      · exfalso
        apply hnd.1
        have hm : f x ∈ tl.map f := List.mem_map_of_mem f hxtl
        rw [hxy, hya] at hm
        exact hm
      · exact ih hnd.2 x hxtl y hytl hxy

theorem settleResults_perm {β : Type} (n : Nat) (ws canon : List (Nat × β))
    (hperm : ws.Perm canon) (hnd : (canon.map Prod.fst).Nodup) :
    settleResults n ws = settleResults n canon := by
  unfold settleResults
  refine hperm.foldl_eq' ?_ _
  intro x hx y hy z
  by_cases hxy : x.1 = y.1
  · have hx' : x ∈ canon := hperm.subset hx
    have hy' : y ∈ canon := hperm.subset hy
    have : x = y := nodup_map_inj Prod.fst canon hnd x hx' y hy' hxy
    rw [this]
  · exact setSlot_comm z x.1 y.1 x.2 y.2 hxy

theorem settleResults_getElem {β : Type} (n : Nat) (ws : List (Nat × β)) (i : Nat) (v : β)
    (hi : i < n) (hmem : (i, v) ∈ ws) (hnd : (ws.map Prod.fst).Nodup) :
    (settleResults n ws)[i]? = some (some v) := by
  obtain ⟨s, t, rfl⟩ := List.append_of_mem hmem
  have hnd' := hnd
  rw [List.map_append, List.map_cons] at hnd'
  have hmid := (List.nodup_append.mp hnd').2.1
  have hit : i ∉ t.map Prod.fst := (List.nodup_cons.mp hmid).1
  unfold settleResults
  rw [List.foldl_append, List.foldl_cons]
  rw [getElem?_foldl_setSlot_not_mem t _ i hit]
  refine getElem?_setSlot_self _ i v ?_
  rw [length_foldl_setSlot, List.length_replicate]
  exact hi

theorem clearContent_path (f : FileAnalysis) : (clearContent f).path = f.path := by
  unfold clearContent
  rcases hc : f.content with _ | c
  · rfl
  · by_cases h : c = ""
    · simp [h]
    · simp [h]

theorem explainMiss_result_file (P : EngineParams) (cfg : Config) (st : EngineState)
    (f : FileAnalysis) : (explainMiss P cfg st f).2.2.file = clearContent f := by
  simp only [explainMiss]
  split <;> rfl

theorem explainFile_result_path (P : EngineParams) (cfg : Config) (st : EngineState)
    (f : FileAnalysis) : (explainFile P cfg st f).2.2.file.path = f.path := by
  simp only [explainFile]
  split
  · split
    · split
      · rw [explainMiss_result_file]
        exact clearContent_path f
      · rfl
    · rw [explainMiss_result_file]
      exact clearContent_path f
  · rw [explainMiss_result_file]
    exact clearContent_path f

theorem runBatchTasks_writes_spec (P : EngineParams) (cfg : Config) :
    ∀ (st : EngineState) (l : List (Nat × FileAnalysis)),
      ((runBatchTasks P cfg st l).2.2).map Prod.fst = l.map Prod.fst ∧
      ∀ w ∈ (runBatchTasks P cfg st l).2.2,
        ∃ f r, (w.1, f) ∈ l ∧ w.2 = some r ∧ r.file.path = f.path := by
  intro st l
  induction l generalizing st with
  | nil => exact ⟨rfl, by intro w hw; cases hw⟩
  | cons hd tl ih =>
    obtain ⟨i, g⟩ := hd
    constructor
    · show (_ :: _).map Prod.fst = _
      rw [List.map_cons, List.map_cons, (ih _).1]
    · intro w hw
      rcases List.mem_cons.mp hw with h | h
      · subst h
        exact ⟨g, (explainFile P cfg st g).2.2, List.mem_cons_self _ _, rfl,
          explainFile_result_path P cfg st g⟩
      · obtain ⟨f, r, hmem, hv, hp⟩ := (ih _).2 w h
        exact ⟨f, r, List.mem_cons_of_mem _ hmem, hv, hp⟩

theorem runBatches_writes_spec (P : EngineParams) (cfg : Config) :
    ∀ (st : EngineState) (bs : List (List (Nat × FileAnalysis))),
      ((runBatches P cfg st bs).2.2).map Prod.fst = bs.flatten.map Prod.fst ∧
      ∀ w ∈ (runBatches P cfg st bs).2.2,
        ∃ f r, (w.1, f) ∈ bs.flatten ∧ w.2 = some r ∧ r.file.path = f.path := by
  intro st bs
  induction bs generalizing st with
  | nil => exact ⟨rfl, by intro w hw; cases hw⟩
  | cons b rest ih =>
    constructor
    · show ((runBatchTasks P cfg st b).2.2 ++ _).map Prod.fst = _
      rw [List.flatten_cons, List.map_append, List.map_append,
        (runBatchTasks_writes_spec P cfg st b).1, (ih _).1]
    · intro w hw
      rcases List.mem_append.mp hw with h | h
      · obtain ⟨f, r, hmem, hv, hp⟩ := (runBatchTasks_writes_spec P cfg st b).2 w h
        exact ⟨f, r, by rw [List.flatten_cons]; exact List.mem_append_left _ hmem, hv, hp⟩
      · obtain ⟨f, r, hmem, hv, hp⟩ := (ih _).2 w h
        exact ⟨f, r, by rw [List.flatten_cons]; exact List.mem_append_right _ hmem, hv, hp⟩

theorem effectiveConcurrency_pos (c : Option Nat) : 1 ≤ effectiveConcurrency c := by
  unfold effectiveConcurrency jsOrDefault
  rcases c with _ | k
  · decide
  · rcases k with _ | k'
    · decide
    · exact le_min (Nat.succ_le_succ (Nat.zero_le _)) (by decide)

theorem chunksGo_join {α : Type} (conc : Nat) (hc : 1 ≤ conc) :
    ∀ (fuel : Nat) (l : List α), l.length ≤ fuel → (chunksGo conc fuel l).flatten = l := by
  intro fuel
  induction fuel with
  | zero =>
    intro l hl
    rw [List.length_eq_zero.mp (Nat.le_zero.mp hl)]
    rfl
  | succ fuel ih =>
    intro l hl
    cases l with
    | nil => rfl
    | cons x xs =>
      show (((x :: xs).take conc :: chunksGo conc fuel ((x :: xs).drop conc)).flatten) = x :: xs
      rw [List.flatten_cons]
      rw [ih ((x :: xs).drop conc) (by
        rw [List.length_drop, List.length_cons]
        rw [List.length_cons] at hl
        omega)]
      exact List.take_append_drop conc (x :: xs)

theorem chunks_join {α : Type} (conc : Nat) (hc : 1 ≤ conc) (l : List α) :
    (chunks conc l).flatten = l :=
  chunksGo_join conc hc l.length l (Nat.le_refl _)

/-- C5: the result array of the batch scheduler has one slot per input file,
and — for any settlement order `ws` of the index-keyed writes (any permutation
of the canonical order, modelling arbitrary intra-batch completion order) —
the slot at index `i` holds the result produced for the input descriptor at
index `i` (in particular the result's spread descriptor carries that input
file's path). -/
theorem batch_results_order_invariant (P : EngineParams) (cfg : Config) (st : EngineState)
    (files : List FileAnalysis) (ws : List (Nat × Option ExplainResult))
    (hperm : ws.Perm (processFilesInBatchesEngine P cfg st files).writes) :
    (settleResults files.length ws).length = files.length ∧
    settleResults files.length ws = (processFilesInBatchesEngine P cfg st files).results ∧
    (∀ i, i < files.length → ∃ (r : ExplainResult) (f : FileAnalysis),
      files[i]? = some f ∧
      (settleResults files.length ws)[i]? = some (some (some r)) ∧
      r.file.path = f.path) := by
  have hjoin : (chunks (effectiveConcurrency cfg.concurrency) files.enum).flatten = files.enum :=
    chunks_join _ (effectiveConcurrency_pos _) _
  have hspec := runBatches_writes_spec P cfg st
    (chunks (effectiveConcurrency cfg.concurrency) files.enum)
  have hcanon : (processFilesInBatchesEngine P cfg st files).writes =
      (runBatches P cfg st (chunks (effectiveConcurrency cfg.concurrency) files.enum)).2.2 := rfl
  have hfst : ((processFilesInBatchesEngine P cfg st files).writes).map Prod.fst =
      List.range files.length := by
    rw [hcanon, hspec.1, hjoin, List.enum_map_fst]
  have hndc : (((processFilesInBatchesEngine P cfg st files).writes).map Prod.fst).Nodup := by
    rw [hfst]
    exact List.nodup_range _
  have hndw : (ws.map Prod.fst).Nodup := by
    have := (hperm.map Prod.fst).nodup_iff
    exact this.mpr hndc
  have heq : settleResults files.length ws =
      settleResults files.length ((processFilesInBatchesEngine P cfg st files).writes) :=
    settleResults_perm _ _ _ hperm hndc
  refine ⟨length_settleResults _ _, heq, ?_⟩
  intro i hi
  have hifst : i ∈ ((processFilesInBatchesEngine P cfg st files).writes).map Prod.fst := by
    rw [hfst]
    exact List.mem_range.mpr hi
  obtain ⟨w, hwmem, hwi⟩ := List.mem_map.mp hifst
  obtain ⟨f, r, hmem, hv, hp⟩ := hspec.2 w (hcanon ▸ hwmem)
  have hwval : w = (i, some r) := by
    obtain ⟨w1, w2⟩ := w
    simp only at hwi hv
    rw [hwi] at *
    rw [hv]
  have hmemw : (i, some r) ∈ ws := hperm.mem_iff.mpr (hwval ▸ hwmem)
  have hfi : files[i]? = some f := by
    have : (i, f) ∈ files.enum := by
      rw [hwi] at hmem
      exact hjoin ▸ hmem
    exact List.mem_enum_iff_getElem?.mp this
  refine ⟨r, f, hfi, ?_, hp⟩
  exact settleResults_getElem files.length ws i (some r) hi hmemw hndw

theorem batch_results_order_invariant_witness :
    (settleResults [wFileA, wFileB].length
        ((processFilesInBatchesEngine wParamsFail wCfg wStEmpty [wFileA, wFileB]).writes).reverse).length =
      [wFileA, wFileB].length ∧
    settleResults [wFileA, wFileB].length
        ((processFilesInBatchesEngine wParamsFail wCfg wStEmpty [wFileA, wFileB]).writes).reverse =
      (processFilesInBatchesEngine wParamsFail wCfg wStEmpty [wFileA, wFileB]).results ∧
    (∀ i, i < [wFileA, wFileB].length → ∃ (r : ExplainResult) (f : FileAnalysis),
      [wFileA, wFileB][i]? = some f ∧
      (settleResults [wFileA, wFileB].length
        ((processFilesInBatchesEngine wParamsFail wCfg wStEmpty [wFileA, wFileB]).writes).reverse)[i]? =
        some (some (some r)) ∧
      r.file.path = f.path) :=
  batch_results_order_invariant wParamsFail wCfg wStEmpty [wFileA, wFileB]
    ((processFilesInBatchesEngine wParamsFail wCfg wStEmpty [wFileA, wFileB]).writes).reverse
    (List.reverse_perm _)

/-! ### C6: batching and the concurrency bound -/

/-- Scheduler event: a task's provider call starts / settles.  Within a batch
all tasks start together and then settle in an arbitrary order; the
settle-all barrier (`await Promise.allSettled`) ends the batch before the
next one starts. -/
inductive SchedEv where
  | start (i : Nat)
  | settle (i : Nat)
deriving DecidableEq, Repr

def isStart : SchedEv → Bool
  | .start _ => true
  | .settle _ => false

/-- Trace of one batch: all its tasks start, then all of them settle (in the
completion order `order`, a permutation of the batch). -/
def batchTrace (b : List Nat) (order : List Nat) : List SchedEv :=
  b.map SchedEv.start ++ order.map SchedEv.settle

/-- Trace of a whole run: batch traces in sequence (the barrier). -/
def schedTrace (batches : List (List Nat × List Nat)) : List SchedEv :=
  (batches.map (fun p => batchTrace p.1 p.2)).flatten

def countStarts (t : List SchedEv) : Nat := t.countP isStart

def countSettles (t : List SchedEv) : Nat := t.countP (fun e => !isStart e)

theorem countStarts_append (t u : List SchedEv) :
    countStarts (t ++ u) = countStarts t + countStarts u :=
  List.countP_append _ _ _

theorem countSettles_append (t u : List SchedEv) :
    countSettles (t ++ u) = countSettles t + countSettles u :=
  List.countP_append _ _ _

theorem countStarts_map_start (l : List Nat) : countStarts (l.map SchedEv.start) = l.length := by
  unfold countStarts
  rw [List.countP_map]
  simp [Function.comp_def, isStart]

theorem countStarts_map_settle (l : List Nat) : countStarts (l.map SchedEv.settle) = 0 := by
  unfold countStarts
  rw [List.countP_map]
  simp [Function.comp_def, isStart]

theorem countSettles_map_start (l : List Nat) : countSettles (l.map SchedEv.start) = 0 := by
  unfold countSettles
  rw [List.countP_map]
  simp [Function.comp_def, isStart]

theorem countSettles_map_settle (l : List Nat) :
    countSettles (l.map SchedEv.settle) = l.length := by
  unfold countSettles
  rw [List.countP_map]
  simp [Function.comp_def, isStart]

theorem countStarts_le_length (t : List SchedEv) : countStarts t ≤ t.length :=
  List.countP_le_length _

theorem countStarts_prefix_of_settles (y z : List SchedEv) (o : List Nat)
    (h : y ++ z = o.map SchedEv.settle) : countStarts y = 0 := by
  unfold countStarts
  rw [List.countP_eq_zero]
  intro e he
  have hmem : e ∈ o.map SchedEv.settle := by
    rw [← h]
    exact List.mem_append_left _ he
  obtain ⟨i, _, rfl⟩ := List.mem_map.mp hmem
  simp [isStart]

/-- In-flight bound inside one batch: any prefix of a batch trace has at most
`C` more starts than settles, provided the batch has at most `C` tasks. -/
theorem batchTrace_prefix_bound (C : Nat) (b o : List Nat) (hlen : b.length ≤ C)
    (t a : List SchedEv) (h : t ++ a = batchTrace b o) :
    countStarts t ≤ countSettles t + C := by
  unfold batchTrace at h
  rcases List.append_eq_append_iff.mp h with ⟨x, hx1, hx2⟩ | ⟨y, hy1, hy2⟩
  · have hlt : t.length ≤ b.length := by
      have := congrArg List.length hx1
      rw [List.length_append, List.length_map] at this
      omega
    calc countStarts t ≤ t.length := countStarts_le_length t
      _ ≤ C := le_trans hlt hlen
      _ ≤ countSettles t + C := Nat.le_add_left _ _
  · rw [hy1, countStarts_append, countSettles_append, countStarts_map_start,
      countSettles_map_start]
    rw [countStarts_prefix_of_settles y a o hy2.symm]
    omega

/-- In-flight bound for a full trace: with every batch of size at most `C` and
the settle-all barrier between batches, at every point of the trace at most
`C` provider calls are in flight. -/
theorem schedTrace_inflight_bound (C : Nat) :
    ∀ (batches : List (List Nat × List Nat)),
      (∀ p ∈ batches, p.1.length ≤ C ∧ p.2.Perm p.1) →
      ∀ t u, t ++ u = schedTrace batches → countStarts t ≤ countSettles t + C := by
  intro batches
  induction batches with
  | nil =>
    intro _ t u h
    have hlen := congrArg List.length h
    rw [List.length_append] at hlen
    have : t = [] := List.eq_nil_of_length_eq_zero (by
      have : (schedTrace []).length = 0 := rfl
      omega)
    rw [this]
    exact Nat.le_add_left _ _
  | cons b bs ih =>
    intro hb t u h
    have hbt : schedTrace (b :: bs) = batchTrace b.1 b.2 ++ schedTrace bs := by
      unfold schedTrace
      rw [List.map_cons, List.flatten_cons]
    rw [hbt] at h
    have hhead := hb b (List.mem_cons_self _ _)
    rcases List.append_eq_append_iff.mp h with ⟨a', ha1, ha2⟩ | ⟨c', hc1, hc2⟩
    · exact batchTrace_prefix_bound C b.1 b.2 hhead.1 t a' ha1.symm
    · have hih := ih (fun p hp => hb p (List.mem_cons_of_mem _ hp)) c' u hc2.symm
      rw [hc1, countStarts_append, countSettles_append]
      unfold batchTrace
      rw [countStarts_append, countSettles_append, countStarts_map_start,
        countSettles_map_start, countStarts_map_settle, countSettles_map_settle]
      have hol : b.2.length = b.1.length := hhead.2.length_eq
      omega

theorem chunksGo_length_le {α : Type} (conc : Nat) :
    ∀ (fuel : Nat) (l : List α), ∀ b ∈ chunksGo conc fuel l, b.length ≤ conc := by
  intro fuel
  induction fuel with
  | zero =>
    intro l b hb
    cases l with
    | nil => cases hb
    | cons x xs => cases hb
  | succ fuel ih =>
    intro l b hb
    cases l with
    | nil => cases hb
    | cons x xs =>
      rcases List.mem_cons.mp hb with h | h
      · rw [h, List.length_take]
        exact min_le_left _ _
      · exact ih _ b h

theorem chunks_length_le {α : Type} (conc : Nat) (l : List α) :
    ∀ b ∈ chunks conc l, b.length ≤ conc :=
  chunksGo_length_le conc l.length l

theorem chunksGo_dropLast_length {α : Type} (conc : Nat) (hc : 1 ≤ conc) :
    ∀ (fuel : Nat) (l : List α), l.length ≤ fuel →
      ∀ b ∈ (chunksGo conc fuel l).dropLast, b.length = conc := by
  intro fuel
  induction fuel with
  | zero =>
    intro l hl b hb
    rw [List.length_eq_zero.mp (Nat.le_zero.mp hl)] at hb
    cases hb
  | succ fuel ih =>
    intro l hl b hb
    cases l with
    | nil => cases hb
    | cons x xs =>
      have hstep : chunksGo conc (fuel + 1) (x :: xs) =
          (x :: xs).take conc :: chunksGo conc fuel ((x :: xs).drop conc) := rfl
      rw [hstep] at hb
      rcases hrest : chunksGo conc fuel ((x :: xs).drop conc) with _ | ⟨r, rs⟩
      · rw [hrest] at hb
        cases hb
      · rw [hrest] at hb
        have hdropne : (x :: xs).drop conc ≠ [] := by
          intro hnil
          rw [hnil] at hrest
          cases fuel <;> cases hrest
        have hlt : conc < (x :: xs).length := by
          by_contra hle
          exact hdropne (List.drop_eq_nil_of_le (Nat.le_of_not_lt hle))
        have hdl : ((x :: xs).take conc :: r :: rs).dropLast =
            (x :: xs).take conc :: (r :: rs).dropLast := rfl
        rw [hdl] at hb
        rcases List.mem_cons.mp hb with h | h
        · rw [h, List.length_take]
          exact min_eq_left (Nat.le_of_lt hlt)
        · have hlen2 : ((x :: xs).drop conc).length ≤ fuel := by
            rw [List.length_drop, List.length_cons]
            rw [List.length_cons] at hl
            omega
          have := ih ((x :: xs).drop conc) hlen2 b
          rw [hrest] at this
          exact this h

theorem chunks_dropLast_length {α : Type} (conc : Nat) (hc : 1 ≤ conc) (l : List α) :
    ∀ b ∈ (chunks conc l).dropLast, b.length = conc :=
  chunksGo_dropLast_length conc hc l.length l (Nat.le_refl _)

/-- C6: the scheduler partitions the enumerated input into consecutive
batches whose concatenation is the input, each of size at most the effective
concurrency (`min (concurrency || 3) 10`, so at most 10, default 3) and — for
every batch except possibly the last — of size exactly the effective
concurrency; and on every trace made of those batches (tasks of a batch start
together and all settle, in any order, before the next batch starts) the
number of in-flight provider calls never exceeds the effective concurrency. -/
theorem batch_partition_concurrency_bound (cfg : Config) (files : List FileAnalysis)
    (batches : List (List Nat × List Nat))
    (hb : batches.map Prod.fst =
      (chunks (effectiveConcurrency cfg.concurrency) files.enum).map (List.map Prod.fst))
    (horders : ∀ p ∈ batches, p.2.Perm p.1) :
    effectiveConcurrency cfg.concurrency ≤ 10 ∧
    effectiveConcurrency none = 3 ∧
    (chunks (effectiveConcurrency cfg.concurrency) files.enum).flatten = files.enum ∧
    (∀ b ∈ chunks (effectiveConcurrency cfg.concurrency) files.enum,
      b.length ≤ effectiveConcurrency cfg.concurrency) ∧
    (∀ b ∈ (chunks (effectiveConcurrency cfg.concurrency) files.enum).dropLast,
      b.length = effectiveConcurrency cfg.concurrency) ∧
    (∀ t u, t ++ u = schedTrace batches →
      countStarts t ≤ countSettles t + effectiveConcurrency cfg.concurrency) := by
  refine ⟨min_le_right _ _, rfl, chunks_join _ (effectiveConcurrency_pos _) _,
    chunks_length_le _ _, chunks_dropLast_length _ (effectiveConcurrency_pos _) _, ?_⟩
  refine schedTrace_inflight_bound _ batches ?_
  intro p hp
  refine ⟨?_, horders p hp⟩
  have hmem : p.1 ∈ (chunks (effectiveConcurrency cfg.concurrency) files.enum).map
      (List.map Prod.fst) := by
    rw [← hb]
    exact List.mem_map_of_mem Prod.fst hp
  obtain ⟨c, hc, hceq⟩ := List.mem_map.mp hmem
  rw [← hceq, List.length_map]
  exact chunks_length_le _ _ c hc

def wFileC : FileAnalysis := ⟨"c", "c", "js", none⟩

def wFileD : FileAnalysis := ⟨"d", "d", "js", none⟩

def wFileE : FileAnalysis := ⟨"e", "e", "js", none⟩

def wFiles5 : List FileAnalysis := [wFileA, wFileB, wFileC, wFileD, wFileE]

def wBatches : List (List Nat × List Nat) := [([0, 1, 2], [2, 0, 1]), ([3, 4], [4, 3])]

theorem batch_partition_concurrency_bound_witness :
    effectiveConcurrency wCfg.concurrency ≤ 10 ∧
    effectiveConcurrency none = 3 ∧
    (chunks (effectiveConcurrency wCfg.concurrency) wFiles5.enum).flatten = wFiles5.enum ∧
    (∀ b ∈ chunks (effectiveConcurrency wCfg.concurrency) wFiles5.enum,
      b.length ≤ effectiveConcurrency wCfg.concurrency) ∧
    (∀ b ∈ (chunks (effectiveConcurrency wCfg.concurrency) wFiles5.enum).dropLast,
      b.length = effectiveConcurrency wCfg.concurrency) ∧
    (∀ t u, t ++ u = schedTrace wBatches →
      countStarts t ≤ countSettles t + effectiveConcurrency wCfg.concurrency) :=
  batch_partition_concurrency_bound wCfg wFiles5 wBatches (by decide) (by decide)

end CodeExplain
